import Mathlib

/-!
Verification of the model-selection pipeline of the Music-Genre-Classifier
repository (gridsearchcv_musicgenreclassifier.py).

The script wires two scikit-learn grid searches (a random-forest pipeline and an
SVC pipeline, each behind a StandardScaler) around a 70/20/10 train/validation/test
split of the cleaned music-genre table.  The hyperparameter dictionaries, pipeline
composition and the call sequence are in the source; the grid expansion,
cross-validation, splitting and scaling algorithms live in the external library,
so those components are modelled here from the specification's description of
them, and the source-level data (grids, split fractions, fold count, seed) is
transliterated from the script.
-/

namespace MGC

/-- A hyperparameter value as it appears in the source's grid dictionaries:
an integer (500, 700, -1, ...), a string ("sqrt", "rbf", "scale") or a
rational (0.1). -/
inductive ParamVal where
  | int (n : ℤ)
  | str (s : String)
  | rat (q : ℚ)
deriving DecidableEq

/-- Modelled from the spec: the Grid Expander (the library's parameter-grid
iterator, not present in the source) turns a mapping from hyperparameter name to
candidate-value list into the full ordered Cartesian product of Configurations,
deterministically ordered lexicographically over parameter insertion order. -/
def expand : List (String × List ParamVal) → List (List (String × ParamVal))
  | [] => [[]]
  | (n, vs) :: rest => vs.bind (fun v => (expand rest).map (fun cfg => (n, v) :: cfg))

/-- The random-forest hyperparameter grid, transliterated from the source
(param_grid_RFC, lines 83-89). -/
def param_grid_RFC : List (String × List ParamVal) :=
  [("classifier__n_estimators", [.int 500, .int 700]),
   ("classifier__max_depth", [.int 10, .int 20]),
   ("classifier__min_samples_split", [.int 10, .int 20]),
   ("classifier__min_samples_leaf", [.int 5, .int 10]),
   ("classifier__max_features", [.str "sqrt"])]

/-- The SVC hyperparameter grid, transliterated from the source
(param_grid_SVC, lines 159-164); max_iter -1 means unlimited. -/
def param_grid_SVC : List (String × List ParamVal) :=
  [("classifier__C", [.int 1, .int 5]),
   ("classifier__kernel", [.str "rbf"]),
   ("classifier__gamma", [.str "scale", .rat (1/10)]),
   ("classifier__max_iter", [.int 500, .int (-1)])]

/-- Modelled from the spec: one step of the Grid Search Engine's running-best
update — a strictly better mean score replaces the current best, while on a tie
the earlier Configuration is kept.  A pair is (index of the Configuration in
the Grid Expander's deterministic ordering, mean cross-validated score). -/
def bestStep (b p : Nat × ℚ) : Nat × ℚ := if b.2 < p.2 then p else b

/-- Modelled from the spec: the running-best scan of the Grid Search Engine
over indexed mean scores. -/
def runBest : Option (Nat × ℚ) → List (Nat × ℚ) → Option (Nat × ℚ)
  | acc, [] => acc
  | none, p :: l => runBest (some p) l
  | some b, p :: l => runBest (some (bestStep b p)) l

/-- The Grid Search Engine's deterministic selection: scan the mean scores in
the Grid Expander's deterministic Configuration order. -/
def gridSearchSelect (scores : List ℚ) : Option (Nat × ℚ) := runBest none scores.enum

/-- Look up the mean score recorded for configuration index i among the arrived
(configuration index, mean score) results. -/
def lookupIdx : List (Nat × ℚ) → Nat → Option ℚ
  | [], _ => none
  | (j, s) :: rest, i => if j = i then some s else lookupIdx rest i

/-- Modelled from the spec (§5): the parallel fan-in reduction indexes the
arrived (configuration, mean score) results by configuration identity — which
restores the Grid Expander's deterministic order — and only then runs the
running-best comparison, never comparing in arrival order. -/
def reduceArrivals (results : List (Nat × ℚ)) (n : Nat) : Option (Nat × ℚ) :=
  runBest none
    ((List.range n).filterMap fun i => (lookupIdx results i).map fun s => (i, s))

/-- Modelled from the spec: the outcome of fitting the pipeline on one fold for
one Configuration — either a valid accuracy score, or a fit failure (e.g. an
infeasible hyperparameter value). -/
inductive FoldOutcome where
  | ok (score : ℚ)
  | failed
deriving DecidableEq

/-- Modelled from the spec: the sentinel failing score recorded for a fold whose
fit failed; valid accuracies lie in [0, 1], so -1 compares worse than any valid
score. -/
def sentinelScore : ℚ := -1

/-- The score the Cross-Validated Scorer records for one fold: the fold's
accuracy on success, the sentinel on failure. -/
def foldScore : FoldOutcome → ℚ
  | .ok s => s
  | .failed => sentinelScore

def isOkFold : FoldOutcome → Bool
  | .ok _ => true
  | .failed => false

/-- Modelled from the spec: the Cross-Validated Scorer aggregates the per-fold
scores of one Configuration into their mean; it is total — a fold failure is
absorbed into the sentinel, never an abort. -/
def cvMeanScore (folds : List FoldOutcome) : ℚ :=
  (folds.map foldScore).sum / folds.length

inductive SearchError where
  | noViableConfiguration
deriving DecidableEq

/-- Modelled from the spec (§7): the Grid Search Engine scores every
Configuration's folds (absorbing per-fold failures), then selects the best via
the deterministic running-best scan; it fails with NoViableConfigurationError
exactly when no Configuration had any successful fold fit. -/
def runGridSearch (outcomes : List (List FoldOutcome)) :
    Except SearchError (Nat × ℚ) :=
  if outcomes.any (fun folds => folds.any isOkFold) then
    match gridSearchSelect (outcomes.map cvMeanScore) with
    | some b => .ok b
    | none => .error .noViableConfiguration
  else
    .error .noViableConfiguration

/-- A fitted pipeline, represented by its hyperparameter Configuration and the
exact rows it was fit on (the estimator abstraction is external; what the core
guarantees is which Configuration and which rows the final fit used). -/
structure FittedPipeline (ρ : Type) where
  config : List (String × ParamVal)
  trainedOn : List ρ
deriving DecidableEq

/-- The SearchResult: the best Configuration's index in the Grid Expander's
deterministic ordering, its mean cross-validated score, and the estimator
refit with that Configuration. -/
structure SearchResult (ρ : Type) where
  bestIndex : Nat
  bestScore : ℚ
  estimator : FittedPipeline ρ
deriving DecidableEq

/-- Modelled from the spec: the final refit of the best Configuration on the
entire Training partition. -/
def refitBest {ρ : Type} (train : List ρ) (cfg : List (String × ParamVal)) :
    FittedPipeline ρ := ⟨cfg, train⟩

/-- Modelled from the spec: the Grid Search Engine — expand the grid, score
every Configuration, select the best deterministically, refit it on the whole
Training partition. -/
def gridSearchFit {ρ : Type} (grid : List (String × List ParamVal))
    (score : List (String × ParamVal) → ℚ) (train : List ρ) :
    Option (SearchResult ρ) :=
  match gridSearchSelect ((expand grid).map score) with
  | none => none
  | some (i, s) => ((expand grid)[i]?).map fun c => ⟨i, s, refitBest train c⟩

/-- Modelled from the spec: the linear-congruential step that keys the Data
Split Manager's deterministic shuffle to the seed. -/
def lcgNext (s : Nat) : Nat := (s * 1103515245 + 12345) % 2 ^ 31

/-- Remove the i-th element of a list, returning it together with the rest. -/
def extractAt {α : Type} : Nat → List α → Option (α × List α)
  | _, [] => none
  | 0, x :: xs => some (x, xs)
  | n + 1, x :: xs => (extractAt n xs).map fun p => (p.1, x :: p.2)

/-- Modelled from the spec: the single deterministic shuffle of the record
order, keyed by the seed (a Fisher–Yates selection loop driven by the
linear-congruential stream); the fuel argument is the list length. -/
def shuffleGo {α : Type} (s : Nat) : Nat → List α → List α
  | 0, _ => []
  | _ + 1, [] => []
  | fuel + 1, x :: xs =>
    match extractAt (s % (xs.length + 1)) (x :: xs) with
    | some (a, rest) => a :: shuffleGo (lcgNext s) fuel rest
    | none => []

def shuffle {α : Type} (seed : Nat) (xs : List α) : List α :=
  shuffleGo seed xs.length xs

/-- Number of held-out records for test_size = 0.3, the library's
ceil(0.3 · n).  Modelled from the spec's rounding policy. -/
def testCount30 (n : Nat) : Nat := (3 * n + 9) / 10

/-- Number of held-out records for test_size = 1/3, the library's ceil(n/3). -/
def testCount13 (n : Nat) : Nat := (n + 2) / 3

/-- Modelled from the spec: one train/test split — shuffle deterministically by
the seed, then slice contiguously: the first tc records of the permuted order
are the test side, the rest the train side. -/
def trainTestSplit {α : Type} (seed : Nat) (tc : Nat → Nat) (xs : List α) :
    List α × List α :=
  (((shuffle seed xs).drop (tc xs.length)), ((shuffle seed xs).take (tc xs.length)))

/-- The source's two-stage split (lines 79-80): 70% train versus 30% temp with
test_size 0.3, then temp split 2:1 into validation and test with test_size 1/3,
both keyed by random_state 42. -/
def splitData {α : Type} (seed : Nat) (xs : List α) :
    List α × List α × List α :=
  let tr := (trainTestSplit seed testCount30 xs).1
  let temp := (trainTestSplit seed testCount30 xs).2
  ((tr, (trainTestSplit seed testCount13 temp).1,
    (trainTestSplit seed testCount13 temp).2))

/-- Modelled from the spec: the k-fold assignment — contiguous folds over the
Training order, the first n % k folds holding n / k + 1 records and the rest
n / k; the arguments are (folds still to make, n / k, n % k, remaining rows). -/
def foldsGo {α : Type} : Nat → Nat → Nat → List α → List (List α)
  | 0, _, _, _ => []
  | k + 1, q, r, xs =>
    xs.take (q + if 0 < r then 1 else 0) ::
      foldsGo k q (r - 1) (xs.drop (q + if 0 < r then 1 else 0))

/-- The k folds of the Cross-Validated Scorer over the Training rows. -/
def kfolds {α : Type} (k : Nat) (xs : List α) : List (List α) :=
  foldsGo k (xs.length / k) (xs.length % k) xs

/-- The held-out fold of rotation i. -/
def heldOut {α : Type} (k : Nat) (xs : List α) (i : Nat) : List α :=
  (kfolds k xs).getD i []

/-- All folds except the i-th, concatenated in order. -/
def joinExcept {α : Type} : List (List α) → Nat → List α
  | [], _ => []
  | _ :: L, 0 => L.flatten
  | f :: L, i + 1 => f ++ joinExcept L i

/-- The training rows of rotation i: every fold except the held-out one. -/
def trainRows {α : Type} (k : Nat) (xs : List α) (i : Nat) : List α :=
  joinExcept (kfolds k xs) i

/-- The arithmetic mean of one feature column (StandardScaler's per-feature
mean, computed by fit from the supplied rows only). -/
def mean (xs : List ℚ) : ℚ := xs.sum / xs.length

/-- The population variance of one feature column — the square of
StandardScaler's per-feature standard deviation. -/
def variance (xs : List ℚ) : ℚ :=
  (xs.map (fun x => (x - mean xs) ^ 2)).sum / xs.length

/-- Modelled from the spec: the scale StandardScaler divides by — the standard
deviation d, except that a zero-variance feature gets scale 1 (no-op scaling)
instead of a division by zero. -/
def scaleOf (var d : ℚ) : ℚ := if var = 0 then 1 else d

/-- StandardScaler's transform of one feature column: subtract the fitted
mean, divide by the fitted scale, identically for every row. -/
def transformWith (μ d : ℚ) (xs : List ℚ) : List ℚ :=
  xs.map (fun x => (x - μ) / d)

/-- Fit the Preprocessing Stage on a column and transform that same column
with its own statistics; d is the fitted standard deviation
(d · d = variance when the variance is nonzero). -/
def fitTransform (d : ℚ) (xs : List ℚ) : List ℚ :=
  transformWith (mean xs) (scaleOf (variance xs) d) xs

/-- The store of fitted estimator objects alive in the script; references are
positions in this list. -/
structure EstimatorHeap (ρ : Type) where
  objs : List (FittedPipeline ρ)

/-- Modelled from the spec / library contract: the validation-stage
cross_validate fits a fresh clone of the referenced estimator's configuration
on each validation fold's training rows and scores it on the held-out fold;
the referenced estimator is read, never written — the new fitted objects are
appended, existing ones untouched. -/
def validationStep {ρ : Type} (h : EstimatorHeap ρ) (ref : Nat)
    (valRows : List ρ) (k : Nat)
    (scoreFold : FittedPipeline ρ → List ρ → ℚ) : EstimatorHeap ρ × List ℚ :=
  (⟨h.objs ++ (List.range k).map (fun i =>
      FittedPipeline.mk ((h.objs.getD ref ⟨[], []⟩).config)
        (trainRows k valRows i))⟩,
   (List.range k).map (fun i =>
      scoreFold
        (FittedPipeline.mk ((h.objs.getD ref ⟨[], []⟩).config)
          (trainRows k valRows i))
        (heldOut k valRows i)))

/-- The predictions an estimator produces on a list of rows; the per-row
classification function is the external estimator abstraction. -/
def predictWith {ρ L : Type} (classify : FittedPipeline ρ → ρ → L)
    (est : FittedPipeline ρ) (rows : List ρ) : List L :=
  rows.map (classify est)

/-- A raw CSV cell as the cleaning stage sees it: a parsed numeric value, a
categorical string, the literal question-mark placeholder, or a missing value
(NaN). -/
inductive Cell where
  | num (q : ℚ)
  | str (s : String)
  | question
  | missing
deriving DecidableEq

/-- The role the source's cleaning stage gives each column: dropped identifier
columns (instance_id, artist_name, track_name, obtained_date), one-hot-encoded
categorical columns (key, mode — with the given dummy-category names),
numeric feature columns, and the music_genre target split off into y. -/
inductive ColKind where
  | dropCol
  | catCol (cats : List String)
  | numCol
  | targetCol
deriving DecidableEq

/-- The source line 42: replace('?', np.nan). -/
def replaceQuestion (c : Cell) : Cell :=
  if c = Cell.question then Cell.missing else c

/-- A row containing a blank (missing) cell. -/
def rowHasMissing (r : List Cell) : Bool :=
  r.any (fun c => c = Cell.missing)

/-- Source lines 40-44: replace '?' by NaN, then drop every row with a blank
value. -/
def cleanRows (t : List (List Cell)) : List (List Cell) :=
  (t.map (fun r => r.map replaceQuestion)).filter (fun r => !(rowHasMissing r))

/-- Source lines 44-48 and 75-76, per cell: identifier columns and the target
are dropped from X, a categorical cell becomes its one-hot indicator cells
(0/1 integers, as get_dummies with dtype=int), a numeric feature cell is kept. -/
def encodeCell (k : ColKind) (c : Cell) : List Cell :=
  match k with
  | .dropCol => []
  | .targetCol => []
  | .numCol => [c]
  | .catCol cats => cats.map (fun v => Cell.num (if c = Cell.str v then 1 else 0))

/-- One row of the feature matrix X. -/
def encodeRow (schema : List ColKind) (r : List Cell) : List Cell :=
  ((schema.zip r).map (fun p => encodeCell p.1 p.2)).flatten

/-- Modelled from the source lines 40-48 and 75-80 (pandas semantics): the
feature matrix X handed to the Data Split Manager and Grid Search Engine. -/
def buildX (schema : List ColKind) (t : List (List Cell)) : List (List Cell) :=
  (cleanRows t).map (encodeRow schema)

def isNumCell : Cell → Bool
  | .num _ => true
  | _ => false

/-- Source line 76: the label cells of one cleaned row — the cells sitting in
the music_genre target column. -/
def extractY (schema : List ColKind) (r : List Cell) : List Cell :=
  ((schema.zip r).filter (fun p => p.1 = ColKind.targetCol)).map Prod.snd

/-- Modelled from the source lines 40-48 and 75-76 (pandas semantics): the
label vector y handed to the Data Split Manager and Grid Search Engine — the
target cell of every cleaned row. -/
def buildY (schema : List ColKind) (t : List (List Cell)) : List Cell :=
  ((cleanRows t).map (extractY schema)).flatten

/-- The framing pd.read_csv provides: a cell sitting in a numeric feature
column is a parsed number, the '?' placeholder, or blank — never some other
string. -/
def WellFormedTable (schema : List ColKind) (t : List (List Cell)) : Prop :=
  ∀ r ∈ t, ∀ p ∈ schema.zip r, p.1 = ColKind.numCol →
    p.2 = Cell.question ∨ p.2 = Cell.missing ∨ isNumCell p.2 = true

theorem expand_length (g : List (String × List ParamVal)) :
    (expand g).length = (g.map fun p => p.2.length).prod := by
  induction g with
  | nil => rfl
  | cons p rest ih =>
    obtain ⟨n, vs⟩ := p
    simp only [expand, List.length_flatMap, List.map_map, Function.comp,
      List.length_map]
    simp [Function.comp_def, List.map_const', List.sum_replicate, smul_eq_mul, ih,
      Nat.mul_comm]

theorem expand_nodup (g : List (String × List ParamVal))
    (hg : ∀ p ∈ g, p.2.Nodup) : (expand g).Nodup := by
  induction g with
  | nil => simp [expand]
  | cons p rest ih =>
    obtain ⟨n, vs⟩ := p
    have hvs : vs.Nodup := hg (n, vs) (by simp)
    have hrest : (expand rest).Nodup := ih (fun q hq => hg q (by simp [hq]))
    simp only [expand]
    rw [List.nodup_bind]
    constructor
    · intro v _
      exact hrest.map (fun a b hab => by simpa using hab)
    · refine hvs.pairwise_of_forall_ne ?_
      intro v hv w hw hvw
      simp only [List.disjoint_left, List.mem_map]
      rintro x ⟨c1, _, rfl⟩ ⟨c2, _, hc⟩
      apply hvw
      have := (List.cons.injEq _ _ _ _).mp hc.symm
      exact (Prod.mk.injEq _ _ _ _ ▸ this.1).2

/-- C1 counterexample: the Ensemble Tree grid of the source expands to
2·2·2·2·1 = 16 configurations, not 80 as the claim states. -/
theorem c1_rfc_grid_count_not_eighty : (expand param_grid_RFC).length ≠ 80 := by
  have h : (expand param_grid_RFC).length = 16 := by rfl
  rw [h]
  decide

/-- C1 (amended): for every HyperparameterGrid whose per-parameter candidate
lists are duplicate-free, the Grid Expander produces exactly the Cartesian
product of the candidate lists — its length is the product of the per-parameter
candidate counts and it contains no duplicate Configuration; in particular the
source's Ensemble Tree grid yields 16 configurations (the claimed 80 is the
number of model fits, 16 configurations × 5 folds) and the Kernel Margin grid
yields 8 configurations. -/
theorem c1_grid_expander_cartesian (g : List (String × List ParamVal))
    (hg : ∀ p ∈ g, p.2.Nodup) :
    (expand g).length = (g.map fun p => p.2.length).prod ∧ (expand g).Nodup ∧
    (expand param_grid_RFC).length = 16 ∧ (expand param_grid_SVC).length = 8 :=
  ⟨expand_length g, expand_nodup g hg, by rfl, by rfl⟩

/-- C1 witness: the amended theorem applied to the concrete SVC grid. -/
theorem c1_grid_expander_cartesian_witness :
    (expand param_grid_SVC).length = 8 ∧ (expand param_grid_SVC).Nodup := by
  have h := c1_grid_expander_cartesian param_grid_SVC (by decide)
  exact ⟨h.2.2.2, h.2.1⟩

theorem lookupIdx_perm {l₁ l₂ : List (Nat × ℚ)} (h : l₁.Perm l₂) :
    (l₁.map Prod.fst).Nodup → ∀ i, lookupIdx l₁ i = lookupIdx l₂ i := by
  induction h with
  | nil => intro _ _; rfl
  | cons x h ih =>
    intro hn i
    obtain ⟨j, s⟩ := x
    simp only [lookupIdx]
    split
    · rfl
    · exact ih (by simpa using (List.nodup_cons.mp (by simpa using hn)).2) i
  | swap x y l =>
    intro hn i
    obtain ⟨jx, sx⟩ := x
    obtain ⟨jy, sy⟩ := y
    have hxy : jy ≠ jx := by
      simp only [List.map_cons, List.nodup_cons, List.mem_cons, not_or] at hn
      exact hn.1.1
    rcases eq_or_ne jy i with rfl | hy
    · have h2 : jx ≠ jy := fun e => hxy e.symm
      simp [lookupIdx, h2]
    · rcases eq_or_ne jx i with rfl | hx2
      · simp [lookupIdx, hy]
      · simp [lookupIdx, hy, hx2]
  | trans h₁ h₂ ih₁ ih₂ =>
    intro hn i
    have hn₂ := ((h₁.map Prod.fst).nodup_iff).mp hn
    exact (ih₁ hn i).trans (ih₂ hn₂ i)

theorem lookupIdx_enumFrom (xs : List ℚ) :
    ∀ (k i : Nat), lookupIdx (xs.enumFrom k) i =
      if i < k then none else xs[i - k]? := by
  induction xs with
  | nil => intro k i; simp [lookupIdx, List.enumFrom]
  | cons x xs ih =>
    intro k i
    simp only [List.enumFrom, lookupIdx]
    rcases eq_or_ne k i with rfl | hk
    · simp
    · rw [if_neg hk, ih (k + 1) i]
      rcases Nat.lt_or_ge i k with hik | hik
      · rw [if_pos (by omega), if_pos hik]
      · have hik' : k < i := Nat.lt_of_le_of_ne hik hk
        rw [if_neg (by omega), if_neg (by omega)]
        have : i - k = (i - (k + 1)) + 1 := by omega
        rw [this]
        simp

theorem lookupIdx_enum (xs : List ℚ) (i : Nat) :
    lookupIdx xs.enum i = xs[i]? := by
  have h := lookupIdx_enumFrom xs 0 i
  simpa [List.enum] using h

theorem range_filterMap_eq_enumFrom (f : Nat → Option ℚ) :
    ∀ (xs : List ℚ) (k : Nat), (∀ j, f (k + j) = xs[j]?) →
      ((List.range' k xs.length).filterMap fun i => (f i).map fun s => (i, s)) =
        xs.enumFrom k := by
  intro xs
  induction xs with
  | nil => intro k _; simp [List.enumFrom]
  | cons x xs ih =>
    intro k h
    have h0 : f k = some x := by simpa using h 0
    have h' : ∀ j, f (k + 1 + j) = xs[j]? := by
      intro j
      have := h (j + 1)
      simpa [Nat.add_assoc, Nat.add_comm 1 j] using this
    simp only [List.length_cons, List.range'_succ, List.filterMap_cons, h0,
      Option.map_some', List.enumFrom]
    rw [ih (k + 1) h']

theorem reduceArrivals_eq_gridSearchSelect (scores : List ℚ)
    (results : List (Nat × ℚ)) (hperm : results.Perm scores.enum) :
    reduceArrivals results scores.length = gridSearchSelect scores := by
  have hkeys : (results.map Prod.fst).Nodup :=
    ((hperm.map Prod.fst).nodup_iff).mpr (List.nodup_enum_map_fst _)
  have hlook : ∀ i, lookupIdx results i = scores[i]? := fun i =>
    (lookupIdx_perm hperm hkeys i).trans (lookupIdx_enum scores i)
  unfold reduceArrivals gridSearchSelect
  rw [List.range_eq_range']
  rw [range_filterMap_eq_enumFrom (fun i => lookupIdx results i) scores 0
    (fun j => by simpa using hlook j)]
  rfl

theorem runBest_spec (l : List (Nat × ℚ)) :
    ∀ (acc : Option (Nat × ℚ)) (b : Nat × ℚ), runBest acc l = some b →
      (acc = some b ∧ ∀ p ∈ l, p.2 ≤ b.2) ∨
      (∃ l₁ l₂, l = l₁ ++ b :: l₂ ∧ (∀ p ∈ l₁, p.2 < b.2) ∧
        (∀ p ∈ l₂, p.2 ≤ b.2) ∧ ∀ a, acc = some a → a.2 < b.2) := by
  induction l with
  | nil =>
    intro acc b hb
    cases acc with
    | none => simp [runBest] at hb
    | some a =>
      left
      refine ⟨?_, by simp⟩
      simpa [runBest] using hb
  | cons p l ih =>
    intro acc b hb
    cases acc with
    | none =>
      rcases ih (some p) b (by simpa [runBest] using hb) with ⟨ha, hle⟩ | hsplit
      · have hpb : p = b := by simpa using ha
        right
        exact ⟨[], l, by rw [List.nil_append, hpb], by simp, hle, by simp⟩
      · obtain ⟨l₁, l₂, hl, hlt, hle, hacc⟩ := hsplit
        right
        refine ⟨p :: l₁, l₂, by rw [List.cons_append, ← hl], ?_, hle, by simp⟩
        intro q hq
        rcases List.mem_cons.mp hq with rfl | hq
        · exact hacc q rfl
        · exact hlt q hq
    | some a =>
      have hb' : runBest (some (bestStep a p)) l = some b := by simpa [runBest] using hb
      by_cases hcmp : a.2 < p.2
      · have hbs : bestStep a p = p := by simp [bestStep, hcmp]
        rw [hbs] at hb'
        rcases ih (some p) b hb' with ⟨ha, hle⟩ | hsplit
        · have hpb : p = b := by simpa using ha
          right
          refine ⟨[], l, by rw [List.nil_append, hpb], by simp, hle, ?_⟩
          intro x hx
          cases hx
          rw [← hpb]
          exact hcmp
        · obtain ⟨l₁, l₂, hl, hlt, hle, hacc⟩ := hsplit
          right
          refine ⟨p :: l₁, l₂, by rw [List.cons_append, ← hl], ?_, hle, ?_⟩
          · intro q hq
            rcases List.mem_cons.mp hq with rfl | hq
            · exact hacc q rfl
            · exact hlt q hq
          · intro x hx
            cases hx
            exact lt_trans hcmp (hacc p rfl)
      · have hbs : bestStep a p = a := by simp [bestStep, hcmp]
        rw [hbs] at hb'
        rcases ih (some a) b hb' with ⟨ha, hle⟩ | hsplit
        · have hab : a = b := by simpa using ha
          left
          refine ⟨by rw [hab], fun q hq => ?_⟩
          rcases List.mem_cons.mp hq with rfl | hq
          · rw [← hab]; exact le_of_not_lt hcmp
          · exact hle q hq
        · obtain ⟨l₁, l₂, hl, hlt, hle, hacc⟩ := hsplit
          right
          refine ⟨p :: l₁, l₂, by rw [List.cons_append, ← hl], ?_, hle, ?_⟩
          · intro q hq
            rcases List.mem_cons.mp hq with rfl | hq
            · exact lt_of_le_of_lt (le_of_not_lt hcmp) (hacc a rfl)
            · exact hlt q hq
          · intro x hx
            cases hx
            exact hacc a rfl

theorem gridSearchSelect_first_max (scores : List ℚ) (b : Nat × ℚ)
    (hb : gridSearchSelect scores = some b) :
    scores[b.1]? = some b.2 ∧
    (∀ (j : Nat) (sj : ℚ), scores[j]? = some sj → sj ≤ b.2) ∧
    (∀ j : Nat, j < b.1 → ∀ sj : ℚ, scores[j]? = some sj → sj < b.2) := by
  rcases runBest_spec scores.enum none b hb with ⟨ha, _⟩ | hsplit
  · cases ha
  obtain ⟨l₁, l₂, hl, hlt, hle, _⟩ := hsplit
  have hb1 : b.1 = l₁.length ∧ scores[b.1]? = some b.2 := by
    have hget : scores.enum[l₁.length]? = some b := by
      rw [hl, List.getElem?_append_right (le_refl _)]
      simp
    rw [List.getElem?_enum] at hget
    cases hx : scores[l₁.length]? with
    | none => rw [hx] at hget; simp at hget
    | some v =>
      rw [hx] at hget
      simp only [Option.map_some', Option.some.injEq] at hget
      constructor
      · rw [← hget]
      · rw [← hget]; simpa using hx
  refine ⟨hb1.2, ?_, ?_⟩
  · intro j sj hj
    have hmem : (j, sj) ∈ scores.enum := by
      have : scores.enum[j]? = some (j, sj) := by
        rw [List.getElem?_enum, hj]; rfl
      exact List.getElem?_mem this
    rw [hl] at hmem
    rcases List.mem_append.mp hmem with hmem | hmem
    · exact le_of_lt (hlt _ hmem)
    · rcases List.mem_cons.mp hmem with heq | hmem
      · rw [show sj = ((j, sj) : Nat × ℚ).2 from rfl, heq]
      · exact hle _ hmem
  · intro j hj sj hjs
    have hj' : j < l₁.length := hb1.1 ▸ hj
    have hget : scores.enum[j]? = some (j, sj) := by
      rw [List.getElem?_enum, hjs]; rfl
    have hget' : l₁[j]? = some (j, sj) := by
      rw [hl, List.getElem?_append, if_pos hj'] at hget
      exact hget
    exact hlt _ (List.getElem?_mem hget')

/-- C2: the Grid Search Engine's selected best Configuration is independent of
the arrival order of parallel results — for every permutation of the complete
indexed score set, the fan-in reduction (which indexes by Configuration
identity) selects exactly what the sequential deterministic scan selects — and
on ties the Configuration that appears first in the Grid Expander's
deterministic ordering wins: every Configuration scores at most the winner's
score and every Configuration strictly before the winner scores strictly
less. -/
theorem c2_selection_deterministic (scores : List ℚ) (results : List (Nat × ℚ))
    (hperm : results.Perm scores.enum) :
    reduceArrivals results scores.length = gridSearchSelect scores ∧
    ∀ b, gridSearchSelect scores = some b →
      scores[b.1]? = some b.2 ∧
      (∀ (j : Nat) (sj : ℚ), scores[j]? = some sj → sj ≤ b.2) ∧
      (∀ j : Nat, j < b.1 → ∀ sj : ℚ, scores[j]? = some sj → sj < b.2) :=
  ⟨reduceArrivals_eq_gridSearchSelect scores results hperm,
   fun b hb => gridSearchSelect_first_max scores b hb⟩

/-- C2 witness: a four-configuration grid with a tied maximum, whose results
arrive out of order; the reduction agrees with the deterministic scan, which
selects the earlier of the two tied Configurations (index 1). -/
theorem c2_selection_deterministic_witness :
    reduceArrivals [(2, 3), (0, 1), (3, 2), (1, 3)] 4 =
      gridSearchSelect [1, 3, 3, 2] ∧
    gridSearchSelect [1, 3, 3, 2] = some (1, 3) := by
  have h := c2_selection_deterministic [1, 3, 3, 2] [(2, 3), (0, 1), (3, 2), (1, 3)]
    (by decide)
  exact ⟨by simpa using h.1, by rfl⟩

theorem runBest_isSome (l : List (Nat × ℚ)) :
    ∀ acc : Option (Nat × ℚ), acc.isSome → (runBest acc l).isSome := by
  induction l with
  | nil => intro acc h; simpa [runBest] using h
  | cons p l ih =>
    intro acc h
    cases acc with
    | none => simp at h
    | some b => exact ih (some (bestStep b p)) rfl

theorem gridSearchSelect_isSome (scores : List ℚ) (h : scores ≠ []) :
    (gridSearchSelect scores).isSome := by
  cases scores with
  | nil => exact absurd rfl h
  | cons s rest =>
    show (runBest none ((s :: rest).enum)).isSome
    have : (s :: rest).enum = (0, s) :: rest.enumFrom 1 := by
      simp [List.enum]
    rw [this]
    exact runBest_isSome _ (some (0, s)) rfl

/-- C3: a fold whose fit fails is scored with the sentinel failing score, which
compares strictly worse than any valid (nonnegative) accuracy; the
Cross-Validated Scorer still records exactly one score per fold (the search
never aborts on a fold failure), and the Grid Search Engine returns a
SearchResult whenever at least one Configuration had at least one successful
fold fit. -/
theorem c3_fold_failure_recovered (folds : List FoldOutcome)
    (outcomes : List (List FoldOutcome))
    (hviable : ∃ fs ∈ outcomes, ∃ o ∈ fs, isOkFold o = true) :
    (∀ s : ℚ, 0 ≤ s → sentinelScore < s) ∧
    (folds.map foldScore).length = folds.length ∧
    (∀ o ∈ folds, o = .failed → foldScore o = sentinelScore) ∧
    ∃ b, runGridSearch outcomes = .ok b := by
  refine ⟨fun s hs => lt_of_lt_of_le (by norm_num [sentinelScore]) hs,
    folds.length_map _, fun o _ ho => by rw [ho]; rfl, ?_⟩
  have hany : outcomes.any (fun fs => fs.any isOkFold) = true := by
    rw [List.any_eq_true]
    obtain ⟨fs, hfs, o, ho, hok⟩ := hviable
    exact ⟨fs, hfs, List.any_eq_true.mpr ⟨o, ho, hok⟩⟩
  have hne : outcomes ≠ [] := by
    rintro rfl
    simp at hany
  have hsome := gridSearchSelect_isSome (outcomes.map cvMeanScore)
    (by simpa using hne)
  unfold runGridSearch
  rw [if_pos hany]
  cases hsel : gridSearchSelect (outcomes.map cvMeanScore) with
  | none => rw [hsel] at hsome; simp at hsome
  | some b => exact ⟨b, rfl⟩

/-- C3 witness: a two-configuration search in which one configuration fails on
a fold and one fails entirely still returns a result. -/
theorem c3_fold_failure_recovered_witness :
    (∀ s : ℚ, 0 ≤ s → sentinelScore < s) ∧
    ((([.failed, .ok 1] : List FoldOutcome)).map foldScore).length = 2 ∧
    (∀ o ∈ ([.failed, .ok 1] : List FoldOutcome), o = .failed →
      foldScore o = sentinelScore) ∧
    ∃ b, runGridSearch [[.failed, .ok (1/2)], [.failed, .failed]] = .ok b := by
  have h := c3_fold_failure_recovered [.failed, .ok 1]
    [[.failed, .ok (1/2)], [.failed, .failed]]
    ⟨[.failed, .ok (1/2)], by simp, .ok (1/2), by simp, rfl⟩
  exact h

/-- C4: whenever the Grid Search Engine returns a SearchResult, its fitted
estimator is exactly the refit of the selected best Configuration on the
entire Training partition — all training rows, not a k-1-fold subset. -/
theorem c4_refit_on_full_training {ρ : Type} (grid : List (String × List ParamVal))
    (score : List (String × ParamVal) → ℚ) (train : List ρ) (r : SearchResult ρ)
    (h : gridSearchFit grid score train = some r) :
    r.estimator.trainedOn = train ∧
    (expand grid)[r.bestIndex]? = some r.estimator.config ∧
    r.estimator = refitBest train r.estimator.config := by
  unfold gridSearchFit at h
  cases hsel : gridSearchSelect ((expand grid).map score) with
  | none => rw [hsel] at h; simp at h
  | some b =>
    obtain ⟨i, s⟩ := b
    rw [hsel] at h
    have h' : ((expand grid)[i]?).map
        (fun c => (⟨i, s, refitBest train c⟩ : SearchResult ρ)) = some r := h
    cases hc : (expand grid)[i]? with
    | none => rw [hc] at h'; simp at h'
    | some c =>
      rw [hc] at h'
      simp only [Option.map_some', Option.some.injEq] at h'
      subst h'
      exact ⟨rfl, by simpa using hc, rfl⟩

/-- C4 witness: the single-configuration SVC-style grid refit on a concrete
three-row training partition. -/
theorem c4_refit_on_full_training_witness :
    gridSearchFit [("classifier__C", [ParamVal.int 1])] (fun _ => 1/2)
        ([10, 20, 30] : List ℚ) =
      some ⟨0, 1/2, ⟨[("classifier__C", ParamVal.int 1)], [10, 20, 30]⟩⟩ ∧
    (SearchResult.mk 0 (1/2)
        (⟨[("classifier__C", ParamVal.int 1)], [10, 20, 30]⟩ :
          FittedPipeline ℚ)).estimator.trainedOn = [10, 20, 30] :=
  ⟨rfl, (c4_refit_on_full_training [("classifier__C", [ParamVal.int 1])]
    (fun _ => 1/2) ([10, 20, 30] : List ℚ)
    ⟨0, 1/2, ⟨[("classifier__C", ParamVal.int 1)], [10, 20, 30]⟩⟩ rfl).1⟩

theorem extractAt_perm {α : Type} :
    ∀ (xs : List α) (i : Nat) (a : α) (rest : List α),
      extractAt i xs = some (a, rest) → (a :: rest).Perm xs := by
  intro xs
  induction xs with
  | nil => intro i a rest h; simp [extractAt] at h
  | cons x xs ih =>
    intro i a rest h
    cases i with
    | zero =>
      simp only [extractAt, Option.some.injEq] at h
      rw [show a = x from congrArg Prod.fst h.symm,
        show rest = xs from congrArg Prod.snd h.symm]
    | succ n =>
      simp only [extractAt] at h
      cases hx : extractAt n xs with
      | none => rw [hx] at h; simp at h
      | some p =>
        obtain ⟨a', rest'⟩ := p
        rw [hx] at h
        simp only [Option.map_some', Option.some.injEq] at h
        have ha : a = a' := (congrArg Prod.fst h.symm)
        have hr : rest = x :: rest' := (congrArg Prod.snd h.symm)
        subst ha
        subst hr
        exact (List.Perm.swap x a rest').trans ((ih n a rest' hx).cons x)

theorem extractAt_isSome {α : Type} :
    ∀ (xs : List α) (i : Nat), i < xs.length → (extractAt i xs).isSome := by
  intro xs
  induction xs with
  | nil => intro i h; simp at h
  | cons x xs ih =>
    intro i h
    cases i with
    | zero => rfl
    | succ n =>
      have := ih n (by simpa using Nat.lt_of_succ_lt_succ h)
      simp only [extractAt, Option.isSome_map']
      exact this

theorem shuffleGo_perm {α : Type} :
    ∀ (fuel : Nat) (s : Nat) (xs : List α), xs.length ≤ fuel →
      (shuffleGo s fuel xs).Perm xs := by
  intro fuel
  induction fuel with
  | zero =>
    intro s xs h
    rw [List.length_eq_zero.mp (Nat.le_zero.mp h)]
    rfl
  | succ fuel ih =>
    intro s xs h
    cases xs with
    | nil => rfl
    | cons x t =>
      have hsome := extractAt_isSome (x :: t) (s % (t.length + 1))
        (by simpa using Nat.mod_lt s (Nat.succ_pos t.length))
      simp only [shuffleGo]
      cases hx : extractAt (s % (t.length + 1)) (x :: t) with
      | none => rw [hx] at hsome; simp at hsome
      | some p =>
        obtain ⟨a, rest⟩ := p
        have hperm := extractAt_perm (x :: t) _ a rest hx
        have hlen : rest.length ≤ fuel := by
          have := hperm.length_eq
          simp only [List.length_cons] at this h
          omega
        exact ((ih (lcgNext s) rest hlen).cons a).trans hperm

theorem shuffle_perm {α : Type} (seed : Nat) (xs : List α) :
    (shuffle seed xs).Perm xs :=
  shuffleGo_perm xs.length seed xs (le_refl _)

theorem trainTestSplit_exhaustive {α : Type} (seed : Nat) (tc : Nat → Nat)
    (xs : List α) :
    ((trainTestSplit seed tc xs).1 ++ (trainTestSplit seed tc xs).2).Perm xs := by
  unfold trainTestSplit
  exact (List.perm_append_comm.trans
    (by rw [List.take_append_drop])).trans (shuffle_perm seed xs)

theorem splitData_exhaustive {α : Type} (seed : Nat) (xs : List α) :
    ((splitData seed xs).1 ++ (splitData seed xs).2.1 ++
      (splitData seed xs).2.2).Perm xs := by
  unfold splitData
  refine (List.Perm.trans ?_ (trainTestSplit_exhaustive seed testCount30 xs))
  rw [List.append_assoc]
  exact List.Perm.append_left _
    (trainTestSplit_exhaustive seed testCount13 _)

/-- C5: the Data Split Manager's three partitions have sizes summing to the
original record count and are exhaustive (a permutation of the input) and — on
a duplicate-free dataset — pairwise disjoint; identical seed and input order
give identical partitions; and a 100-record dataset splits into exactly
70/20/10 records. -/
theorem c5_data_split_manager {α : Type} (seed : Nat) (xs : List α)
    (hnd : xs.Nodup) :
    ((splitData seed xs).1.length + (splitData seed xs).2.1.length +
      (splitData seed xs).2.2.length = xs.length) ∧
    ((splitData seed xs).1 ++ (splitData seed xs).2.1 ++
      (splitData seed xs).2.2).Perm xs ∧
    (splitData seed xs).1.Disjoint (splitData seed xs).2.1 ∧
    (splitData seed xs).1.Disjoint (splitData seed xs).2.2 ∧
    (splitData seed xs).2.1.Disjoint (splitData seed xs).2.2 ∧
    splitData seed xs = splitData seed xs ∧
    (splitData 42 (List.range 100)).1.length = 70 ∧
    (splitData 42 (List.range 100)).2.1.length = 20 ∧
    (splitData 42 (List.range 100)).2.2.length = 10 := by
  have hex := splitData_exhaustive seed xs
  have hlen : (splitData seed xs).1.length + (splitData seed xs).2.1.length +
      (splitData seed xs).2.2.length = xs.length := by
    have := hex.length_eq
    simpa [List.length_append, Nat.add_assoc] using this
  have hsh : (shuffle seed xs).Nodup := ((shuffle_perm seed xs).nodup_iff).mpr hnd
  have htemp : (trainTestSplit seed testCount30 xs).2.Nodup := by
    unfold trainTestSplit
    exact hsh.sublist (List.take_sublist _ _)
  have hsh2 : (shuffle seed (trainTestSplit seed testCount30 xs).2).Nodup :=
    ((shuffle_perm seed _).nodup_iff).mpr htemp
  have hd1 : (trainTestSplit seed testCount30 xs).1.Disjoint
      (trainTestSplit seed testCount30 xs).2 := by
    unfold trainTestSplit
    exact (List.disjoint_take_drop hsh (le_refl _)).symm
  have hval_sub : (splitData seed xs).2.1 ⊆ (trainTestSplit seed testCount30 xs).2 := by
    show (trainTestSplit seed testCount13 _).1 ⊆ _
    unfold trainTestSplit
    intro a ha
    exact (shuffle_perm seed _).mem_iff.mp (List.drop_subset _ _ ha)
  have htest_sub : (splitData seed xs).2.2 ⊆ (trainTestSplit seed testCount30 xs).2 := by
    show (trainTestSplit seed testCount13 _).2 ⊆ _
    unfold trainTestSplit
    intro a ha
    exact (shuffle_perm seed _).mem_iff.mp (List.take_subset _ _ ha)
  have hd23 : (splitData seed xs).2.1.Disjoint (splitData seed xs).2.2 := by
    show (trainTestSplit seed testCount13 _).1.Disjoint
      (trainTestSplit seed testCount13 _).2
    unfold trainTestSplit
    exact (List.disjoint_take_drop hsh2 (le_refl _)).symm
  refine ⟨hlen, hex, ?_, ?_, hd23, rfl, by decide, by decide, by decide⟩
  · intro a ha hv
    exact hd1 ha (hval_sub hv)
  · intro a ha hv
    exact hd1 ha (htest_sub hv)

/-- C5 witness: the split of the concrete ten-record dataset 0..9 with seed
42 — disjoint partitions whose sizes sum to ten. -/
theorem c5_data_split_manager_witness :
    ((splitData 42 (List.range 10)).1.length +
      (splitData 42 (List.range 10)).2.1.length +
      (splitData 42 (List.range 10)).2.2.length = 10) ∧
    (splitData 42 (List.range 10)).1.Disjoint (splitData 42 (List.range 10)).2.1 := by
  have h := c5_data_split_manager 42 (List.range 10) (List.nodup_range 10)
  exact ⟨by simpa using h.1, h.2.2.1⟩

theorem foldsGo_length {α : Type} :
    ∀ (k q r : Nat) (xs : List α), (foldsGo k q r xs).length = k := by
  intro k
  induction k with
  | zero => intro q r xs; rfl
  | succ k ih => intro q r xs; simp [foldsGo, ih]

theorem foldsGo_join {α : Type} :
    ∀ (k q r : Nat) (xs : List α), r ≤ k → xs.length = k * q + r →
      (foldsGo k q r xs).flatten = xs := by
  intro k
  induction k with
  | zero =>
    intro q r xs hr hlen
    rw [List.length_eq_zero.mp (show xs.length = 0 by omega)]
    rfl
  | succ k ih =>
    intro q r xs hr hlen
    have hmul : (k + 1) * q = k * q + q := by ring
    rcases Nat.eq_zero_or_pos r with rfl | hrpos
    · simp only [foldsGo, lt_self_iff_false, if_false, Nat.add_zero, Nat.zero_sub,
        List.flatten_cons]
      rw [ih q 0 (xs.drop q) (Nat.zero_le _)
        (by rw [List.length_drop]; omega)]
      exact List.take_append_drop q xs
    · simp only [foldsGo, List.flatten_cons]
      rw [if_pos hrpos]
      rw [ih q (r - 1) (xs.drop (q + 1)) (by omega)
        (by rw [List.length_drop]; omega)]
      exact List.take_append_drop (q + 1) xs

theorem kfolds_length {α : Type} (k : Nat) (xs : List α) :
    (kfolds k xs).length = k := foldsGo_length k _ _ xs

theorem kfolds_join {α : Type} (k : Nat) (hk : 0 < k) (xs : List α) :
    (kfolds k xs).flatten = xs :=
  foldsGo_join k _ _ xs (le_of_lt (Nat.mod_lt _ hk))
    (by rw [Nat.add_comm, Nat.mod_add_div])

theorem sum_eq_zero_counts (l : List Nat) (h : l.sum = 0) :
    l.countP (fun n => decide (0 < n)) = 0 ∧
    l.countP (fun n => decide (n = 0)) = l.length := by
  induction l with
  | nil => simp
  | cons a l ih =>
    simp only [List.sum_cons] at h
    have ha : a = 0 := by omega
    have hl := ih (by omega)
    subst ha
    simp [List.countP_cons, hl.1, hl.2]

theorem sum_eq_one_counts (l : List Nat) (h : l.sum = 1) :
    l.countP (fun n => decide (0 < n)) = 1 ∧
    l.countP (fun n => decide (n = 0)) = l.length - 1 := by
  induction l with
  | nil => simp at h
  | cons a l ih =>
    simp only [List.sum_cons] at h
    rcases Nat.eq_zero_or_pos a with rfl | hapos
    · have hl := ih (by omega)
      have hlen : 1 ≤ l.length := by
        rcases l with _ | _
        · simp at h
        · simp
      simp only [List.countP_cons, List.length_cons]
      rw [hl.1, hl.2]
      simp
      omega
    · have ha : a = 1 := by omega
      have hz := sum_eq_zero_counts l (by omega)
      subst ha
      simp only [List.countP_cons, List.length_cons]
      rw [hz.1, hz.2]
      simp

theorem count_getD_le_sum {α : Type} [DecidableEq α] (x : α) :
    ∀ (L : List (List α)) (i : Nat),
      (L.getD i []).count x ≤ (L.map (List.count x)).sum := by
  intro L
  induction L with
  | nil => intro i; simp
  | cons f L ih =>
    intro i
    cases i with
    | zero => simp [List.getD_cons_zero]
    | succ n =>
      rw [List.getD_cons_succ]
      calc (L.getD n []).count x ≤ (L.map (List.count x)).sum := ih n
        _ ≤ ((f :: L).map (List.count x)).sum := by simp

theorem count_joinExcept {α : Type} [DecidableEq α] (x : α) :
    ∀ (L : List (List α)) (i : Nat),
      (joinExcept L i).count x =
        (L.map (List.count x)).sum - (L.getD i []).count x := by
  intro L
  induction L with
  | nil => intro i; simp [joinExcept]
  | cons f L ih =>
    intro i
    cases i with
    | zero =>
      simp only [joinExcept, List.getD_cons_zero, List.map_cons, List.sum_cons]
      rw [List.count_flatten]
      omega
    | succ n =>
      simp only [joinExcept, List.getD_cons_succ, List.map_cons, List.sum_cons,
        List.count_append]
      rw [ih n]
      have := count_getD_le_sum x L n
      omega

theorem countP_range_getD {β : Type} (p : β → Bool) (d : β) :
    ∀ (L : List β),
      (List.range L.length).countP (fun i => p (L.getD i d)) = L.countP p := by
  intro L
  induction L with
  | nil => rfl
  | cons f L ih =>
    rw [List.length_cons, List.range_succ_eq_map, List.countP_cons,
      List.countP_map]
    simp only [List.getD_cons_zero, List.getD_cons_succ, Function.comp_def]
    rw [List.countP_cons, ih]

theorem mem_getD_mem_join {α : Type} (L : List (List α)) (i : Nat) (x : α)
    (h : x ∈ L.getD i []) : x ∈ L.flatten := by
  rcases Nat.lt_or_ge i L.length with hi | hi
  · rw [List.getD_eq_getElem _ _ hi] at h
    exact List.mem_flatten.mpr ⟨L[i], List.getElem_mem hi, h⟩
  · rw [List.getD_eq_default _ _ hi] at h
    simp at h

/-- C6: for positive fold count k over a duplicate-free Training partition,
every Training record appears in exactly one held-out fold, plays the training
role in exactly k - 1 of the k rotations, and no rotation's held-out fold
shares a record with that rotation's training rows. -/
theorem c6_fold_coverage {α : Type} [DecidableEq α] (k : Nat) (hk : 0 < k)
    (xs : List α) (hnd : xs.Nodup) (x : α) (hx : x ∈ xs) :
    (kfolds k xs).countP (fun f => decide (x ∈ f)) = 1 ∧
    (List.range k).countP (fun i => decide (x ∈ trainRows k xs i)) = k - 1 ∧
    ∀ i : Nat, (heldOut k xs i).Disjoint (trainRows k xs i) := by
  have hjoin := kfolds_join k hk xs
  have hsum : ((kfolds k xs).map (List.count x)).sum = 1 := by
    rw [← List.count_flatten, hjoin]
    exact List.count_eq_one_of_mem hnd hx
  have hcounts := sum_eq_one_counts _ hsum
  refine ⟨?_, ?_, ?_⟩
  · rw [← hcounts.1, List.countP_map]
    refine List.countP_congr ?_
    intro f _
    simp [Function.comp_def, List.count_pos_iff_mem]
  · have hL : ((kfolds k xs).map (List.count x)).length = k := by
      rw [List.length_map, kfolds_length]
    have hzero : ((kfolds k xs).map (List.count x)).countP
        (fun n => decide (n = 0)) = k - 1 := by
      rw [hcounts.2, hL]
    rw [← hzero, ← countP_range_getD (fun n => decide (n = 0)) 0
      ((kfolds k xs).map (List.count x)), hL]
    refine List.countP_congr ?_
    intro i hi
    have hik : i < k := List.mem_range.mp hi
    have hi' : i < (kfolds k xs).length := by rw [kfolds_length]; exact hik
    have hgetD : ((kfolds k xs).map (List.count x)).getD i 0 =
        List.count x ((kfolds k xs).getD i []) := by
      rw [List.getD_eq_getElem _ _ (by simpa using hi'),
        List.getD_eq_getElem _ _ hi', List.getElem_map]
    have hle := count_getD_le_sum x (kfolds k xs) i
    rw [hsum] at hle
    have hcount := count_joinExcept x (kfolds k xs) i
    rw [hsum] at hcount
    rw [hgetD]
    simp only [decide_eq_true_eq]
    constructor
    · intro hmem
      have hpos : 0 < (trainRows k xs i).count x :=
        List.count_pos_iff_mem.mpr hmem
      have hpos' : 0 < (joinExcept (kfolds k xs) i).count x := hpos
      omega
    · intro hc
      have hpos : 0 < (joinExcept (kfolds k xs) i).count x := by omega
      exact List.count_pos_iff_mem.mp hpos
  · intro i y hy hy'
    have hymem : y ∈ xs := by
      rw [← hjoin]
      exact mem_getD_mem_join _ _ _ hy
    have hysum : ((kfolds k xs).map (List.count y)).sum = 1 := by
      rw [← List.count_flatten, hjoin]
      exact List.count_eq_one_of_mem hnd hymem
    have hcount := count_joinExcept y (kfolds k xs) i
    rw [hysum] at hcount
    have hheld : 0 < ((kfolds k xs).getD i []).count y :=
      List.count_pos_iff_mem.mpr hy
    have htrain : 0 < (joinExcept (kfolds k xs) i).count y :=
      List.count_pos_iff_mem.mpr hy'
    omega

/-- C6 witness: seven records in five folds — record 0 is held out once,
trains in four rotations, and rotation folds never leak. -/
theorem c6_fold_coverage_witness :
    (kfolds 5 (List.range 7)).countP (fun f => decide (0 ∈ f)) = 1 ∧
    (List.range 5).countP (fun i => decide (0 ∈ trainRows 5 (List.range 7) i)) = 4 ∧
    ∀ i : Nat, (heldOut 5 (List.range 7) i).Disjoint (trainRows 5 (List.range 7) i) := by
  have h := c6_fold_coverage 5 (by decide) (List.range 7) (List.nodup_range 7)
    0 (by decide)
  exact h

theorem sum_map_sub (xs : List ℚ) (c : ℚ) :
    (xs.map (fun x => x - c)).sum = xs.sum - xs.length * c := by
  induction xs with
  | nil => simp
  | cons x xs ih =>
    simp only [List.map_cons, List.sum_cons, List.length_cons, ih]
    push_cast
    ring

theorem sum_map_div (xs : List ℚ) (f : ℚ → ℚ) (d : ℚ) :
    (xs.map (fun x => f x / d)).sum = (xs.map f).sum / d := by
  induction xs with
  | nil => simp
  | cons x xs ih =>
    simp only [List.map_cons, List.sum_cons, ih]
    ring

theorem mean_transformWith (xs : List ℚ) (h : xs ≠ []) (d : ℚ) :
    mean (transformWith (mean xs) d xs) = 0 := by
  have hn : (xs.length : ℚ) ≠ 0 := by
    have := List.length_pos.mpr h
    positivity
  unfold transformWith mean
  rw [List.length_map, sum_map_div xs (fun x => x - xs.sum / xs.length) d,
    sum_map_sub]
  rw [mul_div_cancel₀ _ hn]
  simp

theorem variance_transformWith (xs : List ℚ) (h : xs ≠ []) (d : ℚ) :
    variance (transformWith (mean xs) d xs) = variance xs / (d * d) := by
  have hmean0 := mean_transformWith xs h d
  unfold variance at hmean0 ⊢
  rw [hmean0]
  unfold transformWith
  rw [List.map_map, List.length_map]
  have hfun : ((fun y => (y - 0) ^ 2) ∘ fun x => (x - mean xs) / d) =
      fun x => (x - mean xs) ^ 2 / (d * d) := by
    funext x
    simp [Function.comp, div_pow, sq]
    ring
  rw [hfun, sum_map_div xs (fun x => (x - mean xs) ^ 2) (d * d)]
  rw [div_div, div_div, mul_comm (d * d) (xs.length : ℚ)]

theorem sq_sum_zero (xs : List ℚ) (c : ℚ)
    (h : (xs.map (fun x => (x - c) ^ 2)).sum = 0) : ∀ x ∈ xs, x = c := by
  induction xs with
  | nil => simp
  | cons a xs ih =>
    simp only [List.map_cons, List.sum_cons] at h
    have h2 : 0 ≤ (xs.map (fun x => (x - c) ^ 2)).sum := by
      apply List.sum_nonneg
      intro y hy
      obtain ⟨x, _, rfl⟩ := List.mem_map.mp hy
      exact sq_nonneg _
    have h1 : 0 ≤ (a - c) ^ 2 := sq_nonneg _
    have ha : (a - c) ^ 2 = 0 := by linarith
    have hs : (xs.map (fun x => (x - c) ^ 2)).sum = 0 := by linarith
    intro x hx
    rcases List.mem_cons.mp hx with rfl | hx
    · have := sq_eq_zero_iff.mp ha
      linarith [sub_eq_zero.mp this]
    · exact ih hs x hx

/-- C7: for a zero-variance feature column the Preprocessing Stage substitutes
scale 1 for the zero standard deviation, so its transform is the no-op scaling
x - mean (a division by 1, never by 0), and every transformed value of such a
column is the finite value 0. -/
theorem c7_zero_variance_scale_one (xs : List ℚ) (d : ℚ)
    (h : variance xs = 0) :
    scaleOf (variance xs) d = 1 ∧
    fitTransform d xs = xs.map (fun x => x - mean xs) ∧
    ∀ y ∈ fitTransform d xs, y = 0 := by
  have hscale : scaleOf (variance xs) d = 1 := if_pos h
  have htrans : fitTransform d xs = xs.map (fun x => x - mean xs) := by
    unfold fitTransform transformWith
    rw [hscale]
    simp
  refine ⟨hscale, htrans, ?_⟩
  rcases eq_or_ne xs [] with rfl | hne
  · simp [fitTransform, transformWith]
  · have hn : (xs.length : ℚ) ≠ 0 := by
      have := List.length_pos.mpr hne
      positivity
    have hsumsq : (xs.map (fun x => (x - mean xs) ^ 2)).sum = 0 := by
      unfold variance at h
      rcases div_eq_zero_iff.mp h with h0 | h0
      · exact h0
      · exact absurd h0 hn
    have hall := sq_sum_zero xs (mean xs) hsumsq
    intro y hy
    rw [htrans] at hy
    obtain ⟨x, hx, rfl⟩ := List.mem_map.mp hy
    rw [hall x hx]
    ring

/-- C7 witness: the constant feature column [5, 5] has zero variance; its
scale is 1 and its transform is identically 0. -/
theorem c7_zero_variance_scale_one_witness :
    scaleOf (variance [(5 : ℚ), 5]) 3 = 1 ∧
    ∀ y ∈ fitTransform 3 [(5 : ℚ), 5], y = 0 := by
  have h := c7_zero_variance_scale_one [(5 : ℚ), 5] 3 (by norm_num [variance, mean])
  exact ⟨h.1, h.2.2⟩

/-- C8 counterexample: fitting and transforming the constant (zero-variance)
feature column [5, 5] with the Preprocessing Stage's own statistics yields the
column [0, 0], whose standard deviation is 0, not ≈ 1 — the claimed property
fails for zero-variance features. -/
theorem c8_constant_feature_not_unit_variance :
    variance (fitTransform 1 [(5 : ℚ), 5]) = 0 ∧ (0 : ℚ) ≠ 1 := by
  constructor
  · norm_num [fitTransform, transformWith, scaleOf, variance, mean]
  · norm_num

/-- C8 (amended): for every nonempty feature column, transforming the fit data
with the Preprocessing Stage's own statistics gives per-feature mean exactly 0,
and per-feature variance (hence standard deviation) exactly 1 whenever the
feature's variance is nonzero; a zero-variance feature instead transforms to
the constant 0 column (variance 0). -/
theorem c8_standardization_consistency (xs : List ℚ) (h : xs ≠ []) (d : ℚ)
    (hd : d * d = variance xs) :
    mean (fitTransform d xs) = 0 ∧
    (variance xs ≠ 0 → variance (fitTransform d xs) = 1) ∧
    (variance xs = 0 → variance (fitTransform d xs) = 0) := by
  refine ⟨mean_transformWith xs h _, ?_, ?_⟩
  · intro hvar
    unfold fitTransform
    rw [variance_transformWith xs h _]
    rw [show scaleOf (variance xs) d = d from if_neg hvar, hd]
    exact div_self hvar
  · intro hvar
    unfold fitTransform
    rw [variance_transformWith xs h _, hvar]
    simp

/-- C8 witness: the column [0, 2] (mean 1, variance 1) standardizes to mean 0
and variance 1. -/
theorem c8_standardization_consistency_witness :
    mean (fitTransform 1 [(0 : ℚ), 2]) = 0 ∧
    variance (fitTransform 1 [(0 : ℚ), 2]) = 1 := by
  have h := c8_standardization_consistency [(0 : ℚ), 2] (by simp) 1
    (by norm_num [variance, mean])
  exact ⟨h.1, h.2.1 (by norm_num [variance, mean])⟩

/-- C9: the validation-stage cross-validation run does not mutate the
SearchResult's fitted estimator — after validationStep the heap still holds
the very same estimator at the same reference, so the predictions computed on
the Test partition afterwards are exactly the predictions of the estimator as
it was refit on the Training partition. -/
theorem c9_validation_does_not_mutate {ρ L : Type} (h : EstimatorHeap ρ)
    (ref : Nat) (est : FittedPipeline ρ) (href : h.objs[ref]? = some est)
    (valRows testRows : List ρ) (k : Nat)
    (scoreFold : FittedPipeline ρ → List ρ → ℚ)
    (classify : FittedPipeline ρ → ρ → L) :
    (validationStep h ref valRows k scoreFold).1.objs[ref]? = some est ∧
    predictWith classify
      ((validationStep h ref valRows k scoreFold).1.objs.getD ref ⟨[], []⟩)
      testRows = predictWith classify est testRows := by
  have hlt : ref < h.objs.length := by
    by_contra hc
    rw [List.getElem?_eq_none (by omega)] at href
    simp at href
  have hobj : (validationStep h ref valRows k scoreFold).1.objs[ref]? = some est := by
    show (h.objs ++ _)[ref]? = some est
    rw [List.getElem?_append, if_pos hlt]
    exact href
  refine ⟨hobj, ?_⟩
  rw [List.getD_eq_getElem?_getD, hobj]
  rfl

/-- C9 witness: a one-object heap — the refit estimator survives the
validation step, and test predictions agree. -/
theorem c9_validation_does_not_mutate_witness :
    (validationStep ⟨[⟨[("classifier__C", ParamVal.int 1)], [(1 : ℚ), 2, 3]⟩]⟩ 0
        [(4 : ℚ), 5] 5 (fun _ _ => 0)).1.objs[0]? =
      some ⟨[("classifier__C", ParamVal.int 1)], [(1 : ℚ), 2, 3]⟩ ∧
    predictWith (fun est r => (est.trainedOn.length : ℚ) + r)
      ((validationStep ⟨[⟨[("classifier__C", ParamVal.int 1)], [(1 : ℚ), 2, 3]⟩]⟩ 0
          [(4 : ℚ), 5] 5 (fun _ _ => 0)).1.objs.getD 0 ⟨[], []⟩) [(7 : ℚ)] =
      predictWith (fun est r => (est.trainedOn.length : ℚ) + r)
        ⟨[("classifier__C", ParamVal.int 1)], [(1 : ℚ), 2, 3]⟩ [(7 : ℚ)] := by
  exact c9_validation_does_not_mutate
    ⟨[⟨[("classifier__C", ParamVal.int 1)], [(1 : ℚ), 2, 3]⟩]⟩ 0
    ⟨[("classifier__C", ParamVal.int 1)], [(1 : ℚ), 2, 3]⟩ rfl
    [(4 : ℚ), 5] [(7 : ℚ)] 5 (fun _ _ => 0) (fun est r => (est.trainedOn.length : ℚ) + r)

theorem replaceQuestion_ne_question (x : Cell) :
    replaceQuestion x ≠ Cell.question := by
  by_cases hx : x = Cell.question
  · simp [replaceQuestion, hx]
  · simp [replaceQuestion, hx]

/-- C10: after the source's cleaning pipeline — replace '?' by NaN, drop rows
with any blank, drop identifier columns, one-hot encode key and mode, split
off the target — every cell of the feature matrix X is numeric and every
label of the vector y is present: no missing value and no '?' placeholder
survives in either, so the core's no-missing-values, numeric-columns
precondition is established by the program itself. -/
theorem c10_clean_numeric_matrix (schema : List ColKind) (t : List (List Cell))
    (hwf : WellFormedTable schema t) :
    (∀ row ∈ buildX schema t, ∀ c ∈ row,
      isNumCell c = true ∧ c ≠ Cell.missing ∧ c ≠ Cell.question) ∧
    ∀ c ∈ buildY schema t, c ≠ Cell.missing ∧ c ≠ Cell.question := by
  constructor
  swap
  · intro c hc
    obtain ⟨ycells, hyc, hcy⟩ := List.mem_flatten.mp hc
    obtain ⟨r', hr', rfl⟩ := List.mem_map.mp hyc
    obtain ⟨hr'mem, hr'keep⟩ := List.mem_filter.mp hr'
    obtain ⟨r, hr, rfl⟩ := List.mem_map.mp hr'mem
    obtain ⟨p, hpf, hpc⟩ := List.mem_map.mp hcy
    obtain ⟨k, cell⟩ := p
    have hpc' : cell = c := hpc
    subst hpc'
    have hpzip : (k, cell) ∈ schema.zip (r.map replaceQuestion) :=
      List.mem_of_mem_filter hpf
    have hcellmem : cell ∈ r.map replaceQuestion := (List.of_mem_zip hpzip).2
    constructor
    · intro hmiss
      have : rowHasMissing (r.map replaceQuestion) = true := by
        rw [rowHasMissing, List.any_eq_true]
        exact ⟨cell, hcellmem, by simp [hmiss]⟩
      simp [this] at hr'keep
    · obtain ⟨x, _, hx⟩ := List.mem_map.mp hcellmem
      rw [← hx]
      exact replaceQuestion_ne_question x
  intro row hrow c hc
  obtain ⟨r', hr', rfl⟩ := List.mem_map.mp hrow
  obtain ⟨hr'mem, hr'keep⟩ := List.mem_filter.mp hr'
  obtain ⟨r, hr, rfl⟩ := List.mem_map.mp hr'mem
  obtain ⟨cells, hcells, hcmem⟩ := List.mem_flatten.mp hc
  obtain ⟨⟨k, cell⟩, hp, rfl⟩ := List.mem_map.mp hcells
  have hcellmem : cell ∈ r.map replaceQuestion := (List.of_mem_zip hp).2
  have hnomiss : cell ≠ Cell.missing := by
    intro hmiss
    have : rowHasMissing (r.map replaceQuestion) = true := by
      rw [rowHasMissing, List.any_eq_true]
      exact ⟨cell, hcellmem, by simp [hmiss]⟩
    simp [this] at hr'keep
  cases k with
  | dropCol => simp [encodeCell] at hcmem
  | targetCol => simp [encodeCell] at hcmem
  | catCol cats =>
    simp only [encodeCell, List.mem_map] at hcmem
    obtain ⟨v, _, rfl⟩ := hcmem
    refine ⟨rfl, by simp, by simp⟩
  | numCol =>
    simp only [encodeCell, List.mem_singleton] at hcmem
    rw [hcmem]
    have hzip : (ColKind.numCol, cell) ∈ schema.zip (r.map replaceQuestion) := hp
    rw [List.zip_map_right] at hzip
    obtain ⟨⟨k₀, cell₀⟩, hp₀, heq⟩ := List.mem_map.mp hzip
    have hk₀ : k₀ = ColKind.numCol := congrArg Prod.fst heq
    have hcell₀ : replaceQuestion cell₀ = cell := congrArg Prod.snd heq
    have hwf' := hwf r hr (k₀, cell₀) hp₀ hk₀
    dsimp only at hwf'
    rcases hwf' with hq | hm | hn
    · exfalso
      apply hnomiss
      rw [← hcell₀, hq]
      rfl
    · exfalso
      apply hnomiss
      rw [← hcell₀, hm]
      rfl
    · have : cell = cell₀ := by
        rw [← hcell₀]
        cases cell₀ with
        | num q => rfl
        | str s => rfl
        | question => simp [isNumCell] at hn
        | missing => rfl
      rw [this]
      refine ⟨hn, ?_, ?_⟩
      · intro e
        rw [e] at hn
        simp [isNumCell] at hn
      · intro e
        rw [e] at hn
        simp [isNumCell] at hn

/-- C10 witness: in a four-column table (identifier, categorical key, numeric
feature, target) with question marks in a categorical cell and a numeric cell,
the surviving feature-matrix row is numeric and the surviving label is
present — instantiated at the row's second cell and at the label "Rock". -/
theorem c10_clean_numeric_matrix_witness :
    (isNumCell (Cell.num 3) = true ∧ Cell.num 3 ≠ Cell.missing ∧
      Cell.num 3 ≠ Cell.question) ∧
    (Cell.str "Rock" ≠ Cell.missing ∧ Cell.str "Rock" ≠ Cell.question) := by
  have h := c10_clean_numeric_matrix
    [ColKind.dropCol, ColKind.catCol ["A"], ColKind.numCol, ColKind.targetCol]
    [[Cell.str "id1", Cell.str "A", Cell.num 3, Cell.str "Rock"],
     [Cell.str "id2", Cell.question, Cell.num 4, Cell.str "Jazz"],
     [Cell.str "id3", Cell.str "B", Cell.question, Cell.str "Pop"]]
    (by unfold WellFormedTable; decide)
  exact ⟨h.1 [Cell.num 1, Cell.num 3] (by decide) (Cell.num 3) (by decide),
    h.2 (Cell.str "Rock") (by decide)⟩

end MGC
